import Mathlib

/-!
Verification of the RAG subsystem of the Oraculo-BOT repository.

The development shallowly embeds the pure decision logic of
`src/rag/document_processor.py`, `src/rag/vector_store.py` and
`src/rag/rag_system.py`:

* text is `List Char` (Python `str`);
* Python `int` is `Int` (or `Nat` where the source value is a
  non-negative index);
* Python `float` similarity scores are `ℚ` — every claim under study
  depends only on the comparisons the program itself performs, never on
  float rounding;
* fallible operations return `Except String _`; a raised-and-propagated
  Python exception is an `Except.error`;
* external collaborators (the embedding provider, the Chroma index, the
  file system, tiktoken) enter as explicit parameters carrying their
  outcome, so the embedded functions are exactly the repository's own
  logic over those outcomes.
-/

namespace Oraculo

/-- Whitespace as Python `str.strip`/falsiness sees it (ASCII range). -/
def pyIsSpace (c : Char) : Bool :=
  c = ' ' || c = '\t' || c = '\n' || c = '\r' || c = '\x0b' || c = '\x0c'

/-- Python `str.strip()`: drop leading whitespace, then trailing whitespace. -/
def pyStrip (l : List Char) : List Char :=
  List.rdropWhile pyIsSpace (List.dropWhile pyIsSpace l)

/-- Python `w.rfind(pat)`: index of the last occurrence of `pat` in `w`,
`-1` when `pat` does not occur. -/
def rfindList (w pat : List Char) : Int :=
  match (List.filter
      (fun i => decide (i + pat.length ≤ w.length) &&
        decide ((w.drop i).take pat.length = pat)) (List.range w.length)).getLast? with
  | some i => (i : Int)
  | none => -1

/-- Cut position for the window starting at `start`, from
`DocumentProcessor.chunk_text`: try the last sentence boundary at or past
70% of the window, then the last space at or past 80%, else the raw edge.
The source compares the Python `int` index with the float
`chunk_size * 0.7` (resp. `* 0.8`); this is modelled as the exact rational
comparison `7 * chunk_size < 10 * index` (resp. `8 * ... < 10 * ...`). -/
def cutEnd (text : List Char) (chunkSize start : Nat) : Nat :=
  let e := start + chunkSize
  if e < text.length then
    let w := (text.drop start).take chunkSize
    let lastSentenceEnd :=
      max (max (max (max (rfindList w ['.', ' ']) (rfindList w ['.', '\n']))
        (rfindList w ['!', ' '])) (rfindList w ['?', '\n'])) (rfindList w ['\n', '\n'])
    if 7 * (chunkSize : Int) < 10 * lastSentenceEnd then
      start + lastSentenceEnd.toNat + 1
    else if e < text.length then
      let lastSpace := rfindList w [' ']
      if 8 * (chunkSize : Int) < 10 * lastSpace then start + lastSpace.toNat
      else e
    else e
  else e

/-- One embedding of the `while start < len(text)` loop of
`DocumentProcessor.chunk_text`, instrumented to return the raw window
`(start, end)` of each iteration.  `fuel` bounds the number of
iterations; `chunkWindows` below instantiates it with `text.length`,
which is proved sufficient (the loop advances `start` by at least one
per iteration). -/
def chunkWindowsGo (text : List Char) (chunkSize overlap : Nat) :
    Nat → Nat → List (Nat × Nat)
  | 0, _ => []
  | fuel + 1, start =>
    if start < text.length then
      (start, cutEnd text chunkSize start) ::
        chunkWindowsGo text chunkSize overlap fuel
          (max (start + 1) (cutEnd text chunkSize start - overlap))
    else []

/-- The raw chunk windows produced by `DocumentProcessor.chunk_text`. -/
def chunkWindows (text : List Char) (chunkSize overlap : Nat) : List (Nat × Nat) :=
  chunkWindowsGo text chunkSize overlap text.length 0

/-- The chunk-producing loop of `DocumentProcessor.chunk_text`: each
iteration takes `text[start:end]`, strips it, keeps it when non-empty,
and advances `start` to `max(start + 1, end - overlap)`. -/
def chunkLoopGo (text : List Char) (chunkSize overlap : Nat) :
    Nat → Nat → List (List Char)
  | 0, _ => []
  | fuel + 1, start =>
    if start < text.length then
      let e := cutEnd text chunkSize start
      let chunk := pyStrip ((text.drop start).take (e - start))
      let rest := chunkLoopGo text chunkSize overlap fuel (max (start + 1) (e - overlap))
      if chunk.isEmpty then rest else chunk :: rest
    else []

/-- Model of `DocumentProcessor.chunk_text`: validates `chunk_size`/`overlap`
(raising `ValueError`, modelled as `Except.error`, in the source's check
order) and then runs the chunking loop. -/
def chunk_text (text : List Char) (chunk_size overlap : Int) :
    Except String (List (List Char)) :=
  if chunk_size ≤ 0 then .error "chunk_size must be positive"
  else if chunk_size ≤ overlap then .error "overlap must be smaller than chunk_size"
  else if overlap < 0 then .error "overlap must be non-negative"
  else .ok (chunkLoopGo text chunk_size.toNat overlap.toNat text.length 0)

/-- The loop of `chunk_text` as a fuel-guarded procedure that reports
running out of iterations as `none`: `5` termination means a sufficient
fuel exists.  When the loop guard is already false the loop has exited,
whatever fuel remains. -/
def chunkWindowsFuel (text : List Char) (chunkSize overlap : Nat) :
    Nat → Nat → Option (List (Nat × Nat))
  | 0, start => if start < text.length then none else some []
  | fuel + 1, start =>
    if start < text.length then
      match chunkWindowsFuel text chunkSize overlap fuel
          (max (start + 1) (cutEnd text chunkSize start - overlap)) with
      | some ws => some ((start, cutEnd text chunkSize start) :: ws)
      | none => none
    else some []

/-- Chunk metadata as built by `RAGSystem.add_document` /
`DocumentProcessor.get_document_metadata`.  The purely I/O-derived fields
(`file_path`, `file_size`, `mime_type`, `extension`, `processed_at`) are
omitted: no claim mentions them.  Note `id` and `content_hash` are both
set to the parent document's content hash in the source. -/
structure ChunkMeta where
  id : List Char
  filename : List Char
  content_hash : List Char
  chunk_index : Nat
  total_chunks : Nat
  chunk_hash : List Char
deriving DecidableEq, Repr

/-- One record of the persistent index: `(id, text, metadata)`.  The
embedding vector itself is owned by the external provider/index and
plays no role in any claim, so it is not carried. -/
structure StoreRecord where
  id : List Char
  text : List Char
  meta : ChunkMeta
deriving DecidableEq, Repr

/-- A similarity result as assembled by `VectorStore.search_similar`. -/
structure SimilarDoc where
  content : List Char
  meta : ChunkMeta
  similarity_score : ℚ
  rank : Nat
deriving DecidableEq, Repr

/-- Result shape of `VectorStore.get_collection_info`: either the normal
info dict or the error-shaped dict from its `except` branch. -/
inductive CollectionInfo where
  | info (name : List Char) (document_count : Nat) (persist_directory : List Char)
  | err (name : List Char) (message : List Char)
deriving DecidableEq, Repr

/-- Model of `VectorStore.store_document`: rejects text that is empty after
stripping, then obtains the text's embedding from the external provider —
`embedRes` is the outcome of that call: the awaited `embed_func`/OpenAI
request, the `RuntimeError` re-raised when the provider fails, or the
`ValueError` raised when no embedding function is configured — and only
on success persists one record under `metadata.id` (always present in
the orchestrator's flow), returning that id. -/
def store_document (store : List StoreRecord) (text : List Char)
    (meta : ChunkMeta) (embedRes : Except (List Char) Unit) :
    Except (List Char) (List Char × List StoreRecord) :=
  if pyStrip text = [] then .error "Cannot store empty document".toList
  else
    match embedRes with
    | .error e => .error e
    | .ok _ => .ok (meta.id, store ++ [⟨meta.id, text, meta⟩])

/-- Model of `VectorStore.search_similar`: empty query short-circuits to `[]`;
then the query embedding is produced (`embedRes`: the provider call, or
the `ValueError` when no embedding function is configured) and the index
is queried (`queryRes`, giving parallel lists of documents, metadatas and
distances).  This method has NO `try`/`except`, so either failure
propagates.  Distances map to `similarity = 1 - distance/2` and results
below `threshold` are dropped; ranks are 1-based positions. -/
def search_similar (query : List Char) (embedRes : Except String Unit)
    (queryRes : Except String (List (List Char) × List ChunkMeta × List ℚ))
    (threshold : ℚ) : Except String (List SimilarDoc) :=
  if pyStrip query = [] then .ok []
  else
    match embedRes with
    | .error e => .error e
    | .ok _ =>
      match queryRes with
      | .error e => .error e
      | .ok (docs, metas, dists) =>
        .ok (List.filterMap
          (fun x : Nat × (List Char × (ChunkMeta × ℚ)) =>
            match x with
            | (i, doc, meta, dist) =>
              let similarity : ℚ := 1 - dist / 2
              if threshold ≤ similarity then
                some { content := doc, meta := meta,
                       similarity_score := similarity, rank := i + 1 }
              else none)
          ((docs.zip (metas.zip dists)).enum))

/-- Model of `VectorStore.get_collection_info`: the `collection.count()` call on
the external index may fail (`countRes`); the `except` branch converts
that to the error-shaped dict. -/
def get_collection_info (name persistDir : List Char)
    (countRes : Except (List Char) Nat) : CollectionInfo :=
  match countRes with
  | .ok n => .info name n persistDir
  | .error e => .err name e

/-- Model of `VectorStore.delete_document`: `collection.delete(ids=[doc_id])` on
the external index removes every record with that id and does not raise
on an absent id (a silent no-op), so the `except` branch is not taken and
the method returns `True`. -/
def delete_document (store : List StoreRecord) (docId : List Char) :
    Bool × List StoreRecord :=
  (true, store.filter (fun r => decide (r.id ≠ docId)))

/-- Model of `VectorStore.delete_by_metadata`: fetch the ids of records matching
the metadata filter (modelled as a predicate over the metadata); when
non-empty, delete those ids and report how many matched, else `0`. -/
def delete_by_metadata (store : List StoreRecord) (flt : ChunkMeta → Bool) :
    Nat × List StoreRecord :=
  let matching := (store.filter (fun r => flt r.meta)).map (fun r => r.id)
  if matching ≠ [] then
    (matching.length, store.filter (fun r => decide (r.id ∉ matching)))
  else (0, store)

/-- Model of `VectorStore.list_documents`: `collection.get(limit=limit)` on the
external index (`indexRes`) may fail; the `except` branch converts any
failure to `[]`, else the first `limit` records' metadatas are returned. -/
def list_documents (indexRes : Except (List Char) (List StoreRecord))
    (limit : Nat) : List ChunkMeta :=
  match indexRes with
  | .error _ => []
  | .ok recs => (recs.take limit).map (fun r => r.meta)

/-- Fallback branch of `DocumentProcessor.count_tokens` (used whenever
the external tiktoken encoder is unavailable): `len(text) // 4`.  The
retrieval theorems are stated over an arbitrary token counter `tc`,
standing for `count_tokens` with whatever encoder is active; this
function is the concrete counter used in witnesses. -/
def count_tokens_approx (text : List Char) : Nat :=
  text.length / 4

/-- Stable descending insertion used to model
`similar_docs.sort(key=lambda x: x[similarity_score], reverse=True)`:
a document is placed before the first earlier document with a smaller or
equal score, preserving the original order of equal scores exactly as
Python's stable sort does. -/
def insertDesc (d : SimilarDoc) : List SimilarDoc → List SimilarDoc
  | [] => [d]
  | x :: xs =>
    if x.similarity_score ≤ d.similarity_score then d :: x :: xs
    else x :: insertDesc d xs

/-- Model of the in-place stable descending sort in
`RAGSystem.retrieve_context`. -/
def sortBySimilarityDesc (l : List SimilarDoc) : List SimilarDoc :=
  l.foldr insertDesc []

/-- The greedy accumulation loop of `RAGSystem.retrieve_context`.
`started` is the Python truthiness of `context_parts`: the loop breaks
only when the budget would be exceeded AND at least one part was already
accepted — so the first candidate is appended unconditionally. -/
def buildContextParts (tc : List Char → Nat) (maxTokens : Nat) :
    List SimilarDoc → Nat → Bool → List (List Char)
  | [], _, _ => []
  | d :: ds, currentTokens, started =>
    let docTokens := tc d.content
    if decide (maxTokens < currentTokens + docTokens) && started then []
    else d.content :: buildContextParts tc maxTokens ds (currentTokens + docTokens) true

/-- Python `sep.join(parts)`. -/
def joinSep (sep : List Char) : List (List Char) → List Char
  | [] => []
  | [x] => x
  | x :: y :: xs => x ++ sep ++ joinSep sep (y :: xs)

/-- The fixed label prefixed to every non-empty retrieved context. -/
def contextLabel : List Char := "Relevant context from legal documents:\n\n".toList

/-- The separator joining accepted context parts. -/
def contextSep : List Char := "\n\n---\n\n".toList

/-- Model of `RAGSystem.retrieve_context` with the store interaction made
explicit: `searchRes` is the outcome of the awaited
`vector_store.search_similar(query, limit=10, threshold=...)` call, and
`tc` is `processor.count_tokens`.  An empty (after strip) query returns
`""`; the surrounding `try`/`except` turns any raised error into `""`;
otherwise candidates are re-sorted by descending similarity and greedily
accumulated within the `maxTokens` budget, the result being labelled and
joined with the separator. -/
def retrieve_context (tc : List Char → Nat) (maxTokens : Nat)
    (query : List Char) (searchRes : Except String (List SimilarDoc)) :
    List Char :=
  if pyStrip query = [] then []
  else
    match searchRes with
    | .error _ => []
    | .ok similar_docs =>
      if similar_docs = [] then []
      else
        let sorted := sortBySimilarityDesc similar_docs
        let parts := buildContextParts tc maxTokens sorted 0 false
        if parts = [] then []
        else contextLabel ++ joinSep contextSep parts

/-- Orchestrator state: the in-memory Processed-Hash Set (a Python
`set`, modelled as a list queried by membership) plus the persistent
store it coordinates. -/
structure RAGState where
  processedHashes : List (List Char)
  store : List StoreRecord
deriving DecidableEq, Repr

/-- Result dictionary of `RAGSystem.add_document`.  Keys absent from a
given branch of the source (`duplicate`, `chunks_stored`) default to
their falsy values. -/
structure AddResult where
  success : Bool
  error : Option (List Char) := none
  document_id : Option (List Char) := none
  duplicate : Bool := false
  chunks_stored : Nat := 0
deriving DecidableEq, Repr

/-- The per-chunk storage loop of `RAGSystem.add_document`: chunk `i`
gets the document metadata plus `chunk_index`, `total_chunks` and
`chunk_hash`, and is stored with the embedding-provider outcome
`embed c` for its text; a raised storage or provider error aborts the
loop, leaving the already-written records in place (no rollback).
Returns (raised error if any, number of chunks stored, resulting
store). -/
def storeChunks (digest : List Char → List Char)
    (embed : List Char → Except (List Char) Unit)
    (contentHash fname : List Char) (total : Nat) :
    List (List Char) → Nat → List StoreRecord →
      Option (List Char) × Nat × List StoreRecord
  | [], _, store => (none, 0, store)
  | c :: cs, i, store =>
    match store_document store c
        ⟨contentHash, fname, contentHash, i, total, digest c⟩ (embed c) with
    | .error e => (some e, 0, store)
    | .ok (_, store') =>
      let r := storeChunks digest embed contentHash fname total cs (i + 1) store'
      (r.1, r.2.1 + 1, r.2.2)

/-- Model of `RAGSystem.add_document` given the text extracted from the file
(existence check and format-specific extraction are file-system I/O;
`digest` is `DocumentProcessor.get_document_hash`, the SHA-256 hex
digest, kept abstract; `embed` gives the embedding provider's outcome for
each chunk text).  Empty extracted text is rejected; a content hash
already in the Processed-Hash Set short-circuits to the duplicate result
with no store mutation; otherwise the content is chunked with the
configured parameters, every chunk is stored, and only after all stores
is the hash recorded.  Any exception (invalid chunk parameters, a
provider or storage failure mid-loop) is caught by the surrounding `try`
and returned as an error result — with the chunks already written left
in the store and the hash NOT recorded (at-least-once semantics, no
rollback). -/
def add_document (digest : List Char → List Char)
    (embed : List Char → Except (List Char) Unit)
    (chunk_size chunk_overlap : Int) (st : RAGState)
    (fname content : List Char) : AddResult × RAGState :=
  if pyStrip content = [] then
    ({ success := false,
       error := some "Document contains no extractable text".toList }, st)
  else
    let content_hash := digest content
    if content_hash ∈ st.processedHashes then
      ({ success := false,
         error := some "Document already processed (duplicate content)".toList,
         duplicate := true }, st)
    else
      match chunk_text content chunk_size chunk_overlap with
      | .error e => ({ success := false, error := some e.toList }, st)
      | .ok chunks =>
        match storeChunks digest embed content_hash fname chunks.length chunks 0 st.store with
        | (some e, _, store') =>
          ({ success := false, error := some e }, { st with store := store' })
        | (none, n, store') =>
          ({ success := true, document_id := some content_hash,
             chunks_stored := n },
           { processedHashes := content_hash :: st.processedHashes,
             store := store' })

theorem pyStrip_length_le (l : List Char) : (pyStrip l).length ≤ l.length := by
  unfold pyStrip
  exact le_trans ( List.rdropWhile_prefix _ _).length_le
    (List.dropWhile_suffix _).length_le

theorem getElem_zero_of_front {l₁ l₂ : List Char} (h : l₁ <+: l₂)
    (h1 : 0 < l₁.length) (h2 : 0 < l₂.length) : l₂[0] = l₁[0] := by
  obtain ⟨t, rfl⟩ := h
  exact List.getElem_append_left h1

theorem pyStrip_idem (l : List Char) : pyStrip (pyStrip l) = pyStrip l := by
  unfold pyStrip
  have hAfix : List.dropWhile pyIsSpace (List.dropWhile pyIsSpace l) =
      List.dropWhile pyIsSpace l := List.dropWhile_idempotent _ _
  have hfront :
      List.dropWhile pyIsSpace
        (List.rdropWhile pyIsSpace (List.dropWhile pyIsSpace l)) =
      List.rdropWhile pyIsSpace (List.dropWhile pyIsSpace l) := by
    rw [List.dropWhile_eq_self_iff]
    intro hl
    have hlen : 0 < (List.dropWhile pyIsSpace l).length := by
      have hle :=
        ( List.rdropWhile_prefix pyIsSpace (List.dropWhile pyIsSpace l)).length_le
      omega
    have hA0 : ¬ pyIsSpace ((List.dropWhile pyIsSpace l).get ⟨0, hlen⟩) :=
      (List.dropWhile_eq_self_iff.mp hAfix) hlen
    have hget :=
      getElem_zero_of_front
        ( List.rdropWhile_prefix pyIsSpace (List.dropWhile pyIsSpace l)) hl hlen
    simp only [List.get_eq_getElem] at hA0 ⊢
    rw [← hget]
    exact hA0
  rw [hfront, List.rdropWhile_idempotent]

theorem rfindList_le {w pat : List Char} (hp : 1 ≤ pat.length) :
    rfindList w pat ≤ (w.length : Int) - 1 := by
  unfold rfindList
  cases hlast : (List.filter
      (fun i => decide (i + pat.length ≤ w.length) &&
        decide ((w.drop i).take pat.length = pat)) (List.range w.length)).getLast? with
  | none => simp only []; omega
  | some i =>
    have hmem := List.mem_of_mem_getLast? hlast
    have := (List.mem_filter.mp hmem).2
    simp only [Bool.and_eq_true, decide_eq_true_eq] at this
    simp only []
    omega

theorem cutEnd_bounds (text : List Char) (chunkSize start : Nat)
    (hcs : 1 ≤ chunkSize) :
    start + 1 ≤ cutEnd text chunkSize start ∧
      cutEnd text chunkSize start ≤ start + chunkSize := by
  have hwlen : ((text.drop start).take chunkSize).length ≤ chunkSize :=
    List.length_take_le _ _
  have h1 : rfindList ((text.drop start).take chunkSize) ['.', ' '] ≤
      (((text.drop start).take chunkSize).length : Int) - 1 :=
    rfindList_le (by simp)
  have h2 : rfindList ((text.drop start).take chunkSize) ['.', '\n'] ≤
      (((text.drop start).take chunkSize).length : Int) - 1 :=
    rfindList_le (by simp)
  have h3 : rfindList ((text.drop start).take chunkSize) ['!', ' '] ≤
      (((text.drop start).take chunkSize).length : Int) - 1 :=
    rfindList_le (by simp)
  have h4 : rfindList ((text.drop start).take chunkSize) ['?', '\n'] ≤
      (((text.drop start).take chunkSize).length : Int) - 1 :=
    rfindList_le (by simp)
  have h5 : rfindList ((text.drop start).take chunkSize) ['\n', '\n'] ≤
      (((text.drop start).take chunkSize).length : Int) - 1 :=
    rfindList_le (by simp)
  have hmax : max (max (max (max
      (rfindList ((text.drop start).take chunkSize) ['.', ' '])
      (rfindList ((text.drop start).take chunkSize) ['.', '\n']))
      (rfindList ((text.drop start).take chunkSize) ['!', ' ']))
      (rfindList ((text.drop start).take chunkSize) ['?', '\n']))
      (rfindList ((text.drop start).take chunkSize) ['\n', '\n']) ≤
      (((text.drop start).take chunkSize).length : Int) - 1 :=
    max_le (max_le (max_le (max_le h1 h2) h3) h4) h5
  have hsple : rfindList ((text.drop start).take chunkSize) [' '] ≤
      (((text.drop start).take chunkSize).length : Int) - 1 :=
    rfindList_le (by simp)
  unfold cutEnd
  dsimp only
  split_ifs with hlt hsent hsp
  · omega
  · omega
  · omega
  · omega

theorem chunkWindowsGo_fuel_irrel (text : List Char) (chunkSize overlap : Nat) :
    ∀ f1 f2 start, text.length ≤ f1 + start → text.length ≤ f2 + start →
      chunkWindowsGo text chunkSize overlap f1 start =
        chunkWindowsGo text chunkSize overlap f2 start := by
  intro f1
  induction f1 with
  | zero =>
    intro f2 start h1 h2
    cases f2 with
    | zero => rfl
    | succ f2 =>
      simp only [chunkWindowsGo]
      rw [if_neg (by omega)]
  | succ f1 ih =>
    intro f2 start h1 h2
    cases f2 with
    | zero =>
      simp only [chunkWindowsGo]
      rw [if_neg (by omega)]
    | succ f2 =>
      simp only [chunkWindowsGo]
      by_cases hlt : start < text.length
      · rw [if_pos hlt, if_pos hlt]
        have hnext : start + 1 ≤ max (start + 1) (cutEnd text chunkSize start - overlap) :=
          le_max_left _ _
        rw [ih f2 (max (start + 1) (cutEnd text chunkSize start - overlap))
          (by omega) (by omega)]
      · rw [if_neg hlt, if_neg hlt]

theorem chunkWindowsFuel_terminates (text : List Char) (chunkSize overlap : Nat) :
    ∀ fuel start, text.length < fuel + start →
      chunkWindowsFuel text chunkSize overlap fuel start =
        some (chunkWindowsGo text chunkSize overlap fuel start) := by
  intro fuel
  induction fuel with
  | zero =>
    intro start h
    simp only [chunkWindowsFuel, chunkWindowsGo]
    rw [if_neg (by omega)]
  | succ fuel ih =>
    intro start h
    simp only [chunkWindowsFuel, chunkWindowsGo]
    by_cases hlt : start < text.length
    · rw [if_pos hlt, if_pos hlt]
      have hnext : start + 1 ≤ max (start + 1) (cutEnd text chunkSize start - overlap) :=
        le_max_left _ _
      rw [ih (max (start + 1) (cutEnd text chunkSize start - overlap)) (by omega)]
    · rw [if_neg hlt, if_neg hlt]

theorem chunkWindowsGo_head_fst (text : List Char) (chunkSize overlap : Nat)
    (fuel start : Nat) (q : Nat × Nat)
    (h : (chunkWindowsGo text chunkSize overlap fuel start).head? = some q) :
    q.1 = start := by
  cases fuel with
  | zero => simp [chunkWindowsGo] at h
  | succ fuel =>
    simp only [chunkWindowsGo] at h
    by_cases hlt : start < text.length
    · rw [if_pos hlt] at h
      simp only [List.head?_cons, Option.some.injEq] at h
      rw [← h]
    · rw [if_neg hlt] at h
      simp at h

theorem chunkWindowsGo_starts_increase (text : List Char) (chunkSize overlap : Nat) :
    ∀ fuel start,
      List.Chain' (fun p q : Nat × Nat => p.1 < q.1)
        (chunkWindowsGo text chunkSize overlap fuel start) := by
  intro fuel
  induction fuel with
  | zero => intro start; simp [chunkWindowsGo]
  | succ fuel ih =>
    intro start
    simp only [chunkWindowsGo]
    by_cases hlt : start < text.length
    · rw [if_pos hlt]
      refine List.Chain'.cons' (ih _) ?_
      intro q hq
      have := chunkWindowsGo_head_fst text chunkSize overlap fuel _ q hq
      have hnext : start + 1 ≤ max (start + 1) (cutEnd text chunkSize start - overlap) :=
        le_max_left _ _
      omega
    · rw [if_neg hlt]
      exact List.chain'_nil

theorem chunkWindowsGo_mem_bounds (text : List Char) (chunkSize overlap : Nat)
    (hcs : 1 ≤ chunkSize) :
    ∀ fuel start p, p ∈ chunkWindowsGo text chunkSize overlap fuel start →
      p.1 < text.length ∧ p.1 + 1 ≤ p.2 ∧ p.2 ≤ p.1 + chunkSize := by
  intro fuel
  induction fuel with
  | zero => intro start p hp; simp [chunkWindowsGo] at hp
  | succ fuel ih =>
    intro start p hp
    simp only [chunkWindowsGo] at hp
    by_cases hlt : start < text.length
    · rw [if_pos hlt] at hp
      rcases List.mem_cons.mp hp with h | h
      · subst h
        have := cutEnd_bounds text chunkSize start hcs
        exact ⟨hlt, by omega, by omega⟩
      · exact ih _ p h
    · rw [if_neg hlt] at hp
      simp at hp

theorem chunkWindowsGo_cover (text : List Char) (chunkSize overlap : Nat)
    (hcs : 1 ≤ chunkSize) :
    ∀ fuel start i, text.length ≤ fuel + start → start ≤ i → i < text.length →
      ∃ p ∈ chunkWindowsGo text chunkSize overlap fuel start,
        p.1 ≤ i ∧ i < p.2 := by
  intro fuel
  induction fuel with
  | zero => intro start i h1 h2 h3; omega
  | succ fuel ih =>
    intro start i h1 h2 h3
    have hlt : start < text.length := by omega
    simp only [chunkWindowsGo]
    rw [if_pos hlt]
    have hce := cutEnd_bounds text chunkSize start hcs
    by_cases hi : i < cutEnd text chunkSize start
    · exact ⟨(start, cutEnd text chunkSize start), List.mem_cons_self _ _, h2, hi⟩
    · have hnext1 : start + 1 ≤ max (start + 1) (cutEnd text chunkSize start - overlap) :=
        le_max_left _ _
      have hnext2 : max (start + 1) (cutEnd text chunkSize start - overlap) ≤ i := by
        have : cutEnd text chunkSize start - overlap ≤ cutEnd text chunkSize start := by
          omega
        omega
      obtain ⟨p, hmem, hpi⟩ := ih (max (start + 1) (cutEnd text chunkSize start - overlap))
        i (by omega) hnext2 h3
      exact ⟨p, List.mem_cons_of_mem _ hmem, hpi⟩

theorem chunkLoopGo_eq_windows (text : List Char) (chunkSize overlap : Nat) :
    ∀ fuel start,
      chunkLoopGo text chunkSize overlap fuel start =
        List.filter (fun c => !c.isEmpty)
          (List.map (fun p : Nat × Nat => pyStrip ((text.drop p.1).take (p.2 - p.1)))
            (chunkWindowsGo text chunkSize overlap fuel start)) := by
  intro fuel
  induction fuel with
  | zero => intro start; simp [chunkLoopGo, chunkWindowsGo]
  | succ fuel ih =>
    intro start
    simp only [chunkLoopGo, chunkWindowsGo]
    by_cases hlt : start < text.length
    · rw [if_pos hlt, if_pos hlt]
      simp only [List.map_cons, List.filter_cons]
      by_cases hempty : (pyStrip ((text.drop start).take
          (cutEnd text chunkSize start - start))).isEmpty
      · rw [if_pos hempty]
        simp [hempty, ih]
      · rw [if_neg hempty]
        simp only [Bool.not_eq_true] at hempty
        simp [hempty, ih]
    · rw [if_neg hlt, if_neg hlt]
      simp

theorem chunkLoopGo_mem_props (text : List Char) (chunkSize overlap : Nat)
    (hcs : 1 ≤ chunkSize) (fuel start : Nat) (c : List Char)
    (hc : c ∈ chunkLoopGo text chunkSize overlap fuel start) :
    c ≠ [] ∧ pyStrip c = c ∧ c.length ≤ chunkSize := by
  rw [chunkLoopGo_eq_windows] at hc
  have hfil := List.mem_filter.mp hc
  obtain ⟨p, hp, hmap⟩ := List.mem_map.mp hfil.1
  have hb := chunkWindowsGo_mem_bounds text chunkSize overlap hcs fuel start p hp
  refine ⟨?_, ?_, ?_⟩
  · have := hfil.2
    simp only [Bool.not_eq_true'] at this
    simpa [List.isEmpty_iff] using this
  · rw [← hmap, pyStrip_idem]
  · rw [← hmap]
    calc (pyStrip ((text.drop p.1).take (p.2 - p.1))).length
        ≤ ((text.drop p.1).take (p.2 - p.1)).length := pyStrip_length_le _
      _ ≤ p.2 - p.1 := List.length_take_le _ _
      _ ≤ chunkSize := by omega

theorem mem_insertDesc {a d : SimilarDoc} :
    ∀ {l : List SimilarDoc}, a ∈ insertDesc d l ↔ a = d ∨ a ∈ l := by
  intro l
  induction l with
  | nil => simp [insertDesc]
  | cons x xs ih =>
    simp only [insertDesc]
    by_cases hx : x.similarity_score ≤ d.similarity_score
    · rw [if_pos hx]
      simp [List.mem_cons]
    · rw [if_neg hx]
      simp only [List.mem_cons, ih]
      tauto

theorem mem_sortBySimilarityDesc {a : SimilarDoc} :
    ∀ {l : List SimilarDoc}, a ∈ sortBySimilarityDesc l ↔ a ∈ l := by
  intro l
  induction l with
  | nil => simp [sortBySimilarityDesc]
  | cons x xs ih =>
    show a ∈ insertDesc x (sortBySimilarityDesc xs) ↔ _
    rw [mem_insertDesc]
    simp only [List.mem_cons, ih]

theorem pairwise_insertDesc {d : SimilarDoc} {l : List SimilarDoc}
    (h : l.Pairwise (fun a b => b.similarity_score ≤ a.similarity_score)) :
    (insertDesc d l).Pairwise
      (fun a b => b.similarity_score ≤ a.similarity_score) := by
  induction l with
  | nil => simp [insertDesc]
  | cons x xs ih =>
    simp only [insertDesc]
    rcases List.pairwise_cons.mp h with ⟨hx, hxs⟩
    by_cases hle : x.similarity_score ≤ d.similarity_score
    · rw [if_pos hle]
      refine List.pairwise_cons.mpr ⟨?_, h⟩
      intro b hb
      rcases List.mem_cons.mp hb with hb | hb
      · subst hb; exact hle
      · exact le_trans (hx b hb) hle
    · rw [if_neg hle]
      refine List.pairwise_cons.mpr ⟨?_, ih hxs⟩
      intro b hb
      rcases mem_insertDesc.mp hb with hb | hb
      · subst hb; exact le_of_lt (lt_of_not_le hle)
      · exact hx b hb

theorem pairwise_sortBySimilarityDesc :
    ∀ (l : List SimilarDoc),
      (sortBySimilarityDesc l).Pairwise
        (fun a b => b.similarity_score ≤ a.similarity_score) := by
  intro l
  induction l with
  | nil => simp [sortBySimilarityDesc]
  | cons x xs ih => exact pairwise_insertDesc ih

theorem insertDesc_ne_nil (d : SimilarDoc) (l : List SimilarDoc) :
    insertDesc d l ≠ [] := by
  cases l with
  | nil => simp [insertDesc]
  | cons x xs =>
    simp only [insertDesc]
    by_cases hx : x.similarity_score ≤ d.similarity_score
    · rw [if_pos hx]; simp
    · rw [if_neg hx]; simp

/-- Claim C3: for every text and every (chunk_size, overlap) with
chunk_size > 0 and 0 ≤ overlap < chunk_size, the chunking loop
terminates — running it with an iteration budget of `text.length + 1`
completes (never exhausts its fuel), and the window start strictly
increases from one iteration to the next, being advanced to
`max(start + 1, end - overlap)`. -/
theorem claimC3 (text : List Char) (chunkSize overlap : Nat)
    (hcs : 0 < chunkSize) (hov : overlap < chunkSize) :
    chunkWindowsFuel text chunkSize overlap (text.length + 1) 0 =
      some (chunkWindows text chunkSize overlap) ∧
    List.Chain' (fun p q : Nat × Nat => p.1 < q.1)
      (chunkWindows text chunkSize overlap) := by
  refine ⟨?_, chunkWindowsGo_starts_increase _ _ _ _ _⟩
  unfold chunkWindows
  rw [chunkWindowsFuel_terminates text chunkSize overlap (text.length + 1) 0 (by omega)]
  rw [chunkWindowsGo_fuel_irrel text chunkSize overlap (text.length + 1) text.length 0
    (by omega) (by omega)]

theorem claimC3_witness :
    0 < 2 ∧ 1 < 2 ∧
      (chunkWindowsFuel "ab".toList 2 1 3 0 = some (chunkWindows "ab".toList 2 1) ∧
        List.Chain' (fun p q : Nat × Nat => p.1 < q.1) (chunkWindows "ab".toList 2 1)) :=
  ⟨by decide, by decide, claimC3 "ab".toList 2 1 (by decide) (by decide)⟩

/-- Claim C9: `chunk_text` raises (an error modelled as `Except.error`)
exactly when chunk_size ≤ 0, or overlap < 0, or overlap ≥ chunk_size;
for parameters with chunk_size > 0 and 0 ≤ overlap < chunk_size it never
raises. -/
theorem claimC9 (text : List Char) (chunk_size overlap : Int) :
    (∃ e, chunk_text text chunk_size overlap = .error e) ↔
      (chunk_size ≤ 0 ∨ overlap < 0 ∨ chunk_size ≤ overlap) := by
  unfold chunk_text
  split_ifs with h1 h2 h3
  · exact ⟨fun _ => Or.inl h1, fun _ => ⟨_, rfl⟩⟩
  · exact ⟨fun _ => Or.inr (Or.inr h2), fun _ => ⟨_, rfl⟩⟩
  · exact ⟨fun _ => Or.inr (Or.inl h3), fun _ => ⟨_, rfl⟩⟩
  · constructor
    · rintro ⟨e, he⟩
      simp at he
    · intro hor
      exfalso
      omega

/-- Claim C4 fails as stated: chunks are stripped of whitespace before
being returned, so even with overlap 0 (where the non-overlapping
portions of consecutive chunks are the chunks themselves, since the raw
windows partition the text) their concatenation can lose characters.
On "a b" with chunk_size 2 and overlap 0 the function returns
["a", "b"], whose concatenation "ab" is not "a b": the space between
the two windows is dropped by stripping. -/
theorem claimC4_counterexample :
    chunk_text "a b".toList 2 0 = .ok [['a'], ['b']] ∧
      List.flatten [['a'], ['b']] ≠ "a b".toList := by
  exact ⟨rfl, by decide⟩

/-- Claim C4, amended: for every text and valid (chunk_size, overlap)
the raw chunk windows cover the text — every character position lies in
at least one window, so no character is skipped — and the returned
chunks are exactly the windows' slices stripped of leading/trailing
whitespace with empty results discarded. Reconstruction of the text
from the returned chunks therefore holds only up to the whitespace
trimmed at window edges. -/
theorem claimC4_amended (text : List Char) (chunkSize overlap : Nat)
    (hcs : 0 < chunkSize) (hov : overlap < chunkSize) :
    (∀ i, i < text.length →
      ∃ p ∈ chunkWindows text chunkSize overlap, p.1 ≤ i ∧ i < p.2) ∧
    chunk_text text (chunkSize : Int) (overlap : Int) =
      .ok (List.filter (fun c => !c.isEmpty)
        (List.map (fun p : Nat × Nat => pyStrip ((text.drop p.1).take (p.2 - p.1)))
          (chunkWindows text chunkSize overlap))) := by
  constructor
  · intro i hi
    exact chunkWindowsGo_cover text chunkSize overlap hcs text.length 0 i
      (by omega) (by omega) hi
  · unfold chunk_text
    rw [if_neg (by omega), if_neg (by omega), if_neg (by omega)]
    unfold chunkWindows
    have hcast : ((chunkSize : Int)).toNat = chunkSize := rfl
    have hcast2 : ((overlap : Int)).toNat = overlap := rfl
    rw [hcast, hcast2, chunkLoopGo_eq_windows]

theorem claimC4_amended_witness :
    0 < 2 ∧ 0 < 2 ∧
      ((∀ i, i < ("a b".toList).length →
          ∃ p ∈ chunkWindows "a b".toList 2 0, p.1 ≤ i ∧ i < p.2) ∧
        chunk_text "a b".toList (2 : Int) (0 : Int) =
          .ok (List.filter (fun c => !c.isEmpty)
            (List.map (fun p : Nat × Nat =>
              pyStrip (("a b".toList.drop p.1).take (p.2 - p.1)))
              (chunkWindows "a b".toList 2 0)))) :=
  ⟨by decide, by decide, claimC4_amended "a b".toList 2 0 (by decide) (by decide)⟩

/-- Claim C10: every chunk returned by a successful `chunk_text` call is
non-empty, has no leading or trailing whitespace (stripping it again
changes nothing), and is at most chunk_size characters long. -/
theorem claimC10 (text : List Char) (chunk_size overlap : Int)
    (chunks : List (List Char))
    (hok : chunk_text text chunk_size overlap = .ok chunks) :
    ∀ c ∈ chunks, c ≠ [] ∧ pyStrip c = c ∧ (c.length : Int) ≤ chunk_size := by
  unfold chunk_text at hok
  rcases Decidable.em (chunk_size ≤ 0) with h1 | h1
  · rw [if_pos h1] at hok; simp at hok
  rw [if_neg h1] at hok
  rcases Decidable.em (chunk_size ≤ overlap) with h2 | h2
  · rw [if_pos h2] at hok; simp at hok
  rw [if_neg h2] at hok
  rcases Decidable.em (overlap < 0) with h3 | h3
  · rw [if_pos h3] at hok; simp at hok
  rw [if_neg h3] at hok
  injection hok with hok
  intro c hc
  have hcs : 1 ≤ chunk_size.toNat := by omega
  have hprops := chunkLoopGo_mem_props text chunk_size.toNat overlap.toNat hcs
    text.length 0 c (by rw [hok]; exact hc)
  refine ⟨hprops.1, hprops.2.1, ?_⟩
  have := hprops.2.2
  omega

theorem claimC10_witness :
    chunk_text "ab".toList 1 0 = .ok [['a'], ['b']] ∧
      (['a'] ≠ [] ∧ pyStrip ['a'] = ['a'] ∧
        (((['a'] : List Char)).length : Int) ≤ 1) :=
  ⟨rfl, claimC10 "ab".toList 1 0 [['a'], ['b']] rfl ['a'] (by decide)⟩

/-- Claim C6: every result returned by `search_similar` has
similarity_score at least the given threshold — the filter admits a
candidate only when `1 - distance/2 ≥ threshold`. -/
theorem claimC6 (query : List Char) (embedRes : Except String Unit)
    (queryRes : Except String (List (List Char) × List ChunkMeta × List ℚ))
    (threshold : ℚ) (results : List SimilarDoc)
    (hok : search_similar query embedRes queryRes threshold = .ok results) :
    ∀ r ∈ results, threshold ≤ r.similarity_score := by
  unfold search_similar at hok
  rcases Decidable.em (pyStrip query = []) with hq | hq
  · rw [if_pos hq] at hok
    injection hok with hok
    rw [← hok]
    intro r hr
    cases hr
  · rw [if_neg hq] at hok
    match embedRes with
    | .error e => simp at hok
    | .ok _ =>
      match queryRes with
      | .error e => simp at hok
      | .ok (docs, metas, dists) =>
        simp only [Except.ok.injEq] at hok
        intro r hr
        rw [← hok] at hr
        obtain ⟨x, _, hx⟩ := List.mem_filterMap.mp hr
        obtain ⟨i, doc, meta, dist⟩ := x
        simp only [] at hx
        rcases Decidable.em (threshold ≤ 1 - dist / 2) with hth | hth
        · rw [if_pos hth] at hx
          injection hx with hx
          rw [← hx]
          exact hth
        · rw [if_neg hth] at hx
          cases hx

theorem claimC6_witness :
    search_similar "q".toList (.ok ()) (.ok (["c".toList], [⟨[], [], [], 0, 0, []⟩], [0]))
        (1 / 2) = .ok [⟨"c".toList, ⟨[], [], [], 0, 0, []⟩, 1, 1⟩] ∧
      (1 / 2 : ℚ) ≤ (1 : ℚ) := by
  have hok : search_similar "q".toList (.ok ())
      (.ok (["c".toList], [⟨[], [], [], 0, 0, []⟩], [0])) (1 / 2) =
      .ok [⟨"c".toList, ⟨[], [], [], 0, 0, []⟩, 1, 1⟩] := by
    unfold search_similar
    rw [if_neg (by decide)]
    norm_num [List.zip, List.zipWith, List.enum, List.enumFrom, List.filterMap]
  exact ⟨hok, claimC6 "q".toList (.ok ())
    (.ok (["c".toList], [⟨[], [], [], 0, 0, []⟩], [0])) (1 / 2)
    [⟨"c".toList, ⟨[], [], [], 0, 0, []⟩, 1, 1⟩] hok
    ⟨"c".toList, ⟨[], [], [], 0, 0, []⟩, 1, 1⟩ (by simp)⟩

/-- Claim C7 fails as stated: `search_similar` has no `try`/`except`, so
a provider error raised while embedding the query propagates out of the
Vector Store method as an exception instead of being converted to an
empty result.  (It is `RAGSystem.retrieve_context`, one level up, that
absorbs it.) -/
theorem claimC7_counterexample :
    search_similar "q".toList (.error "provider down") (.ok ([], [], []))
      (7 / 10) = .error "provider down" := rfl

/-- Claim C7, amended: of the three read operations, `list_documents`
and `get_collection_info` do catch any provider/index error and convert
it to an empty list resp. the error-shaped info record, but
`search_similar` propagates such errors (both embedding and index-query
failures); they are absorbed one level up, in
`RAGSystem.retrieve_context`, which degrades them to the empty
context. -/
theorem claimC7_amended :
    (∀ (e : List Char) (limit : Nat), list_documents (.error e) limit = []) ∧
    (∀ (name dir e : List Char),
      get_collection_info name dir (.error e) = .err name e) ∧
    (∀ (query : List Char) (e : String)
        (queryRes : Except String (List (List Char) × List ChunkMeta × List ℚ))
        (threshold : ℚ), pyStrip query ≠ [] →
      search_similar query (.error e) queryRes threshold = .error e) ∧
    (∀ (tc : List Char → Nat) (maxTokens : Nat) (query : List Char) (e : String),
      retrieve_context tc maxTokens query (.error e) = []) := by
  refine ⟨fun e limit => rfl, fun name dir e => rfl, ?_, ?_⟩
  · intro query e queryRes threshold hq
    unfold search_similar
    rw [if_neg hq]
  · intro tc maxTokens query e
    unfold retrieve_context
    rcases Decidable.em (pyStrip query = []) with hq | hq
    · rw [if_pos hq]
    · rw [if_neg hq]

theorem claimC7_amended_witness :
    pyStrip "q".toList ≠ [] ∧
      search_similar "q".toList (.error "boom") (.ok ([], [], [])) (7 / 10) =
        .error "boom" :=
  ⟨by decide, claimC7_amended.2.2.1 "q".toList "boom" (.ok ([], [], [])) (7 / 10)
    (by decide)⟩

/-- Claim C8 fails as stated: deleting a nonexistent chunk id with
`delete_document` returns `true`, not `false` — the underlying index
delete is a non-raising no-op on absent ids, and the method returns
`True` whenever no exception is raised. -/
theorem claimC8_counterexample :
    delete_document [] "missing".toList = (true, []) := rfl

/-- Claim C8, amended: `delete_document` on an id matching no record
returns `true` (not `false`) and leaves the store unchanged, and
`delete_by_metadata` with a filter matching no record returns `0` with
the store unchanged; neither raises. -/
theorem claimC8_amended :
    (∀ (store : List StoreRecord) (docId : List Char),
      (∀ r ∈ store, r.id ≠ docId) →
        delete_document store docId = (true, store)) ∧
    (∀ (store : List StoreRecord) (flt : ChunkMeta → Bool),
      (∀ r ∈ store, flt r.meta = false) →
        delete_by_metadata store flt = (0, store)) := by
  constructor
  · intro store docId hab
    unfold delete_document
    rw [List.filter_eq_self.mpr]
    intro r hr
    simpa using hab r hr
  · intro store flt hab
    unfold delete_by_metadata
    have hfil : store.filter (fun r => flt r.meta) = [] := by
      rw [List.filter_eq_nil_iff]
      intro r hr
      simp [hab r hr]
    rw [hfil]
    simp

theorem claimC8_amended_witness :
    (∀ r ∈ ([⟨['a'], ['t'], ⟨['a'], [], ['a'], 0, 1, ['t']⟩⟩] : List StoreRecord),
        r.id ≠ "missing".toList) ∧
      delete_document [⟨['a'], ['t'], ⟨['a'], [], ['a'], 0, 1, ['t']⟩⟩]
          "missing".toList =
        (true, [⟨['a'], ['t'], ⟨['a'], [], ['a'], 0, 1, ['t']⟩⟩]) :=
  ⟨by decide, claimC8_amended.1 [⟨['a'], ['t'], ⟨['a'], [], ['a'], 0, 1, ['t']⟩⟩]
    "missing".toList (by decide)⟩

theorem buildContextParts_started_break (tc : List Char → Nat) (maxTokens : Nat) :
    ∀ (ds : List SimilarDoc) (currentTokens : Nat),
      maxTokens < currentTokens →
      buildContextParts tc maxTokens ds currentTokens true = [] := by
  intro ds currentTokens hover
  cases ds with
  | nil => rfl
  | cons d ds =>
    unfold buildContextParts
    rw [if_pos]
    simp only [Bool.and_true, decide_eq_true_eq]
    omega

/-- Claim C1 fails as stated: the loop's break condition
`current_tokens + doc_tokens > max_tokens and context_parts` is false on
the first iteration because `context_parts` is still empty, so the first
candidate is appended unconditionally.  With a single candidate of 8
characters (2 tokens under the `len // 4` fallback counter) and a budget
of 1 token, `retrieve_context` returns the labelled candidate, not `""`. -/
theorem claimC1_counterexample :
    1 < count_tokens_approx "aaaaaaaa".toList ∧
      retrieve_context count_tokens_approx 1 "q".toList
          (.ok [⟨"aaaaaaaa".toList, ⟨[], [], [], 0, 0, []⟩, 1, 1⟩]) =
        contextLabel ++ "aaaaaaaa".toList ∧
      contextLabel ++ "aaaaaaaa".toList ≠ [] := by
  refine ⟨by decide, rfl, by decide⟩

/-- Claim C1, amended: when every candidate's token count exceeds
`max_tokens`, `retrieve_context` does not return the empty string but a
context consisting of exactly the first candidate after the descending
sort (one of maximal similarity), included whole — the first over-budget
candidate is added unconditionally, and every following candidate is
excluded.  No chunk is ever truncated mid-text. -/
theorem claimC1_amended (tc : List Char → Nat) (maxTokens : Nat)
    (query : List Char) (docs : List SimilarDoc)
    (hq : pyStrip query ≠ []) (hne : docs ≠ [])
    (hover : ∀ d ∈ docs, maxTokens < tc d.content) :
    ∃ d ∈ docs, (∀ d' ∈ docs, d'.similarity_score ≤ d.similarity_score) ∧
      retrieve_context tc maxTokens query (.ok docs) =
        contextLabel ++ d.content := by
  have hsortne : sortBySimilarityDesc docs ≠ [] := by
    cases docs with
    | nil => exact absurd rfl hne
    | cons x xs => exact insertDesc_ne_nil x (sortBySimilarityDesc xs)
  cases hsort : sortBySimilarityDesc docs with
  | nil => exact absurd hsort hsortne
  | cons d0 rest =>
    have hd0docs : d0 ∈ docs :=
      mem_sortBySimilarityDesc.mp (by rw [hsort]; exact List.mem_cons_self _ _)
    refine ⟨d0, hd0docs, ?_, ?_⟩
    · intro d' hd'
      have hd'sort : d' ∈ sortBySimilarityDesc docs := mem_sortBySimilarityDesc.mpr hd'
      rw [hsort] at hd'sort
      rcases List.mem_cons.mp hd'sort with hh | hh
      · subst hh; exact le_refl _
      · have hpw := pairwise_sortBySimilarityDesc docs
        rw [hsort] at hpw
        exact (List.pairwise_cons.mp hpw).1 d' hh
    · unfold retrieve_context
      rw [if_neg hq]
      dsimp only
      rw [if_neg hne, hsort]
      have hparts : buildContextParts tc maxTokens (d0 :: rest) 0 false =
          [d0.content] := by
        unfold buildContextParts
        rw [if_neg (by simp)]
        rw [buildContextParts_started_break tc maxTokens rest (0 + tc d0.content)
          (by have := hover d0 hd0docs; omega)]
      rw [hparts]
      rw [if_neg (by simp)]
      rfl

theorem claimC1_amended_witness :
    pyStrip "q".toList ≠ [] ∧
      ([⟨"aaaaaaaa".toList, ⟨[], [], [], 0, 0, []⟩, 1, 1⟩] : List SimilarDoc) ≠ [] ∧
      (∀ d ∈ ([⟨"aaaaaaaa".toList, ⟨[], [], [], 0, 0, []⟩, 1, 1⟩] : List SimilarDoc),
        1 < count_tokens_approx d.content) ∧
      ∃ d ∈ ([⟨"aaaaaaaa".toList, ⟨[], [], [], 0, 0, []⟩, 1, 1⟩] : List SimilarDoc),
        (∀ d' ∈ ([⟨"aaaaaaaa".toList, ⟨[], [], [], 0, 0, []⟩, 1, 1⟩] : List SimilarDoc),
          d'.similarity_score ≤ d.similarity_score) ∧
        retrieve_context count_tokens_approx 1 "q".toList
            (.ok [⟨"aaaaaaaa".toList, ⟨[], [], [], 0, 0, []⟩, 1, 1⟩]) =
          contextLabel ++ d.content :=
  ⟨by decide, by decide, by decide,
    claimC1_amended count_tokens_approx 1 "q".toList
      [⟨"aaaaaaaa".toList, ⟨[], [], [], 0, 0, []⟩, 1, 1⟩]
      (by decide) (by decide) (by decide)⟩

theorem add_document_mem_hashes (digest : List Char → List Char)
    (embed : List Char → Except (List Char) Unit)
    (chunk_size chunk_overlap : Int) (st : RAGState) (fname content : List Char)
    (hok : (add_document digest embed chunk_size chunk_overlap st fname content).1.success = true ∨
      (add_document digest embed chunk_size chunk_overlap st fname content).1.duplicate = true) :
    pyStrip content ≠ [] ∧
      digest content ∈
        (add_document digest embed chunk_size chunk_overlap st fname content).2.processedHashes := by
  unfold add_document at hok ⊢
  rcases Decidable.em (pyStrip content = []) with hemp | hemp
  · rw [if_pos hemp] at hok
    simp at hok
  rw [if_neg hemp] at hok ⊢
  refine ⟨hemp, ?_⟩
  dsimp only at hok ⊢
  rcases Decidable.em (digest content ∈ st.processedHashes) with hin | hin
  · rw [if_pos hin]
    exact hin
  rw [if_neg hin] at hok ⊢
  cases hct : chunk_text content chunk_size chunk_overlap with
  | error e =>
    rw [hct] at hok
    simp at hok
  | ok chunks =>
    rw [hct] at hok
    dsimp only at hok ⊢
    rcases hsc : storeChunks digest embed (digest content) fname chunks.length chunks 0 st.store
      with ⟨eopt, n, store'⟩
    rw [hsc] at hok
    cases eopt with
    | some e => simp at hok
    | none => exact List.mem_cons_self _ _

theorem add_document_duplicate_again (digest : List Char → List Char)
    (embed : List Char → Except (List Char) Unit)
    (chunk_size chunk_overlap : Int) (st : RAGState) (fname content : List Char)
    (hstrip : pyStrip content ≠ []) (hmem : digest content ∈ st.processedHashes) :
    add_document digest embed chunk_size chunk_overlap st fname content =
      ({ success := false,
         error := some "Document already processed (duplicate content)".toList,
         duplicate := true }, st) := by
  unfold add_document
  rw [if_neg hstrip]
  dsimp only
  rw [if_pos hmem]

/-- Claim C2 fails as stated: two `add_document` calls on files whose
extracted texts are byte-identical but empty both fail with the
no-extractable-text error and never reach the hash check, so the second
call reports `duplicate = false` rather than `duplicate = true`. -/
theorem claimC2_counterexample :
    (add_document (fun s => s) (fun _ => .ok ()) 1000 200
        (add_document (fun s => s) (fun _ => .ok ()) 1000 200 ⟨[], []⟩ [] []).2
        [] []).1.duplicate = false ∧
      (add_document (fun s => s) (fun _ => .ok ()) 1000 200
        (add_document (fun s => s) (fun _ => .ok ()) 1000 200 ⟨[], []⟩ [] []).2
        [] []).1.success = false := by
  exact ⟨rfl, rfl⟩

/-- Claim C2, amended: if the first `add_document` call on the content
did not fail (it either succeeded or itself reported a duplicate — in
particular whenever the extracted text is non-empty and the chunking
parameters are valid), then a second call with byte-identical extracted
content returns `duplicate = true`, is not a success, and performs no
mutation at all: the resulting state (store included) is exactly the
state after the first call. -/
theorem claimC2_amended (digest : List Char → List Char)
    (embed : List Char → Except (List Char) Unit)
    (chunk_size chunk_overlap : Int) (st : RAGState)
    (fname1 fname2 content : List Char)
    (hfirst : (add_document digest embed chunk_size chunk_overlap st fname1 content).1.success = true ∨
      (add_document digest embed chunk_size chunk_overlap st fname1 content).1.duplicate = true) :
    (add_document digest embed chunk_size chunk_overlap
        (add_document digest embed chunk_size chunk_overlap st fname1 content).2
        fname2 content).1.duplicate = true ∧
      (add_document digest embed chunk_size chunk_overlap
        (add_document digest embed chunk_size chunk_overlap st fname1 content).2
        fname2 content).1.success = false ∧
      (add_document digest embed chunk_size chunk_overlap
        (add_document digest embed chunk_size chunk_overlap st fname1 content).2
        fname2 content).2 =
        (add_document digest embed chunk_size chunk_overlap st fname1 content).2 := by
  obtain ⟨hstrip, hmem⟩ :=
    add_document_mem_hashes digest embed chunk_size chunk_overlap st fname1 content hfirst
  rw [add_document_duplicate_again digest embed chunk_size chunk_overlap
    (add_document digest embed chunk_size chunk_overlap st fname1 content).2
    fname2 content hstrip hmem]
  exact ⟨rfl, rfl, rfl⟩

theorem claimC2_amended_witness :
    ((add_document (fun s => s) (fun _ => .ok ()) 5 0 ⟨[], []⟩ ['f']
        "ab".toList).1.success = true ∨
      (add_document (fun s => s) (fun _ => .ok ()) 5 0 ⟨[], []⟩ ['f']
        "ab".toList).1.duplicate = true) ∧
      ((add_document (fun s => s) (fun _ => .ok ()) 5 0
          (add_document (fun s => s) (fun _ => .ok ()) 5 0 ⟨[], []⟩ ['f'] "ab".toList).2
          ['g'] "ab".toList).1.duplicate = true ∧
        (add_document (fun s => s) (fun _ => .ok ()) 5 0
          (add_document (fun s => s) (fun _ => .ok ()) 5 0 ⟨[], []⟩ ['f'] "ab".toList).2
          ['g'] "ab".toList).1.success = false ∧
        (add_document (fun s => s) (fun _ => .ok ()) 5 0
          (add_document (fun s => s) (fun _ => .ok ()) 5 0 ⟨[], []⟩ ['f'] "ab".toList).2
          ['g'] "ab".toList).2 =
          (add_document (fun s => s) (fun _ => .ok ()) 5 0 ⟨[], []⟩ ['f'] "ab".toList).2) :=
  ⟨Or.inl rfl,
    claimC2_amended (fun s => s) (fun _ => .ok ()) 5 0 ⟨[], []⟩ ['f'] ['g']
      "ab".toList (Or.inl rfl)⟩

end Oraculo
